import Mathlib

/-!
Shallow embedding of the analytics engine of the customer-SKU-analysis
repository (src/analyzer.py, src/utils.py), together with proofs of the
testable properties stated in its specification.

Numeric cells are modelled by `PFloat`, a four-constructor model of the
IEEE-754 double values that pandas produces on these code paths: an exact
rational, NaN, +inf and -inf.  Rationals stand in for finite doubles; the
claims under study are about the algebra of the pipeline, not about binary
rounding of individual floats.
-/

/-- Model of a pandas cell value: a finite number, NaN, or a signed infinity. -/
inductive PFloat where
  | num (q : ℚ)
  | nan
  | inf
  | ninf
deriving DecidableEq

namespace PFloat

/-- IEEE division as produced by pandas column division (`a / b`):
division by zero yields a signed infinity (NaN for 0/0), NaN propagates. -/
def pdiv : PFloat → PFloat → PFloat
  | nan, _ => nan
  | _, nan => nan
  | num p, num q =>
      if q = 0 then (if 0 < p then inf else if p < 0 then ninf else nan)
      else num (p / q)
  | num _, inf => num 0
  | num _, ninf => num 0
  | inf, num q => if 0 ≤ q then inf else ninf
  | ninf, num q => if 0 ≤ q then ninf else inf
  | inf, inf => nan
  | inf, ninf => nan
  | ninf, inf => nan
  | ninf, ninf => nan

/-- IEEE multiplication (`a * b`): 0 * inf is NaN, NaN propagates. -/
def pmul : PFloat → PFloat → PFloat
  | nan, _ => nan
  | _, nan => nan
  | num p, num q => num (p * q)
  | num p, inf => if 0 < p then inf else if p < 0 then ninf else nan
  | num p, ninf => if 0 < p then ninf else if p < 0 then inf else nan
  | inf, num q => if 0 < q then inf else if q < 0 then ninf else nan
  | ninf, num q => if 0 < q then ninf else if q < 0 then inf else nan
  | inf, inf => inf
  | inf, ninf => ninf
  | ninf, inf => ninf
  | ninf, ninf => inf

/-- IEEE addition: inf + (-inf) is NaN, NaN propagates. -/
def padd : PFloat → PFloat → PFloat
  | nan, _ => nan
  | _, nan => nan
  | num p, num q => num (p + q)
  | num _, inf => inf
  | num _, ninf => ninf
  | inf, num _ => inf
  | ninf, num _ => ninf
  | inf, inf => inf
  | ninf, ninf => ninf
  | inf, ninf => nan
  | ninf, inf => nan

/-- Model of `Series.fillna(0)`: NaN becomes 0; infinities are left untouched. -/
def fillna0 : PFloat → PFloat
  | nan => num 0
  | v => v

/-- Model of `Series.replace(0, np.nan)`: an exact zero becomes NaN. -/
def replace0nan : PFloat → PFloat
  | num q => if q = 0 then nan else num q
  | v => v

/-- Model of `Series.clip(lo, hi)`: finite values are clamped, NaN is preserved,
infinities clamp to the corresponding bound. -/
def clip (lo hi : ℚ) : PFloat → PFloat
  | num q => num (min hi (max lo q))
  | nan => nan
  | inf => num hi
  | ninf => num lo

/-- Python float `>=`: false whenever either side is NaN. -/
def pge : PFloat → PFloat → Bool
  | nan, _ => false
  | _, nan => false
  | num a, num b => b ≤ a
  | num _, inf => false
  | num _, ninf => true
  | inf, _ => true
  | ninf, ninf => true
  | ninf, _ => false

/-- Python float `<`: false whenever either side is NaN. -/
def plt : PFloat → PFloat → Bool
  | nan, _ => false
  | _, nan => false
  | num a, num b => a < b
  | num _, inf => true
  | num _, ninf => false
  | inf, _ => false
  | ninf, ninf => false
  | ninf, _ => true

end PFloat

open PFloat

/-- From `src/analyzer.py` `_calculate_derived_metrics` / `_aggregate_data`:
unit margin column `(profit / quantity * 10000).fillna(0)`. -/
def unitMargin (profit quantity : PFloat) : PFloat :=
  fillna0 (pmul (pdiv profit quantity) (num 10000))

/-- From `src/analyzer.py` `_calculate_derived_metrics` / `_aggregate_data`:
cost rate column `(totalCost / amount.replace(0, nan)).fillna(0).clip(0, 10)`. -/
def costRate (totalCost amount : PFloat) : PFloat :=
  clip 0 10 (fillna0 (pdiv totalCost (replace0nan amount)))

/-- From `src/utils.py`: `calculate_quadrant`, on pandas float values. -/
def calculate_quadrant (x_value y_value x_avg y_avg : PFloat) : ℕ :=
  if pge x_value x_avg && pge y_value y_avg then 1
  else if plt x_value x_avg && pge y_value y_avg then 2
  else if plt x_value x_avg && plt y_value y_avg then 3
  else 4

theorem calc_quadrant_cases (x y a b : PFloat) :
    calculate_quadrant x y a b = 1 ∨ calculate_quadrant x y a b = 2 ∨
    calculate_quadrant x y a b = 3 ∨ calculate_quadrant x y a b = 4 := by
  unfold calculate_quadrant
  split
  · exact Or.inl rfl
  · split
    · exact Or.inr (Or.inl rfl)
    · split
      · exact Or.inr (Or.inr (Or.inl rfl))
      · exact Or.inr (Or.inr (Or.inr rfl))

theorem fillna0_ne_nan (x : PFloat) : fillna0 x ≠ nan := by
  cases x <;> simp [fillna0]

theorem clip_0_10_form (x : PFloat) (hx : x ≠ nan) :
    ∃ v : ℚ, clip 0 10 x = num v ∧ 0 ≤ v ∧ v ≤ 10 := by
  cases x with
  | num q =>
      refine ⟨min 10 (max 0 q), rfl, ?_, ?_⟩
      · exact le_min (by norm_num) (le_max_left 0 q)
      · exact min_le_left 10 _
  | nan => exact absurd rfl hx
  | inf => exact ⟨10, rfl, by norm_num, by norm_num⟩
  | ninf => exact ⟨0, rfl, by norm_num, by norm_num⟩

theorem pdiv_nan_right (x : PFloat) : pdiv x nan = nan := by
  cases x <;> rfl

/-- C1 (counterexample): a row with profit 5 (万元) and quantity 0 gets unit
margin +inf from `(profit / quantity * 10000).fillna(0)` — pandas division of
a nonzero value by zero yields infinity, which `fillna` does not replace —
so the computed unit margin is not 0. -/
theorem unitMargin_pos_profit_zero_qty_not_zero :
    unitMargin (num 5) (num 0) = inf ∧ unitMargin (num 5) (num 0) ≠ num 0 := by
  constructor
  · decide
  · decide

/-- C1 (amended): when the quantity value is 0 the computation never raises;
the unit margin is 0 exactly when the profit is 0 or missing (NaN from 0/0 is
filled with 0), while a positive profit gives +inf and a negative profit
gives -inf (pandas infinities, which `fillna(0)` leaves in place). -/
theorem unitMargin_zero_quantity (p : ℚ) :
    unitMargin (num 0) (num 0) = num 0 ∧
    unitMargin nan (num 0) = num 0 ∧
    (0 < p → unitMargin (num p) (num 0) = inf) ∧
    (p < 0 → unitMargin (num p) (num 0) = ninf) := by
  refine ⟨by decide, by decide, fun hp => ?_, fun hp => ?_⟩
  · simp [unitMargin, pdiv, pmul, fillna0, hp, hp.not_lt, hp.ne]
  · simp [unitMargin, pdiv, pmul, fillna0, hp, hp.not_lt]

theorem unitMargin_zero_quantity_witness :
    ((0:ℚ) < 7 ∧ unitMargin (num 7) (num 0) = inf) ∧
    ((-3:ℚ) < 0 ∧ unitMargin (num (-3)) (num 0) = ninf) :=
  ⟨⟨by norm_num, (unitMargin_zero_quantity 7).2.2.1 (by norm_num)⟩,
   ⟨by norm_num, (unitMargin_zero_quantity (-3)).2.2.2 (by norm_num)⟩⟩

/-- C2: the cost rate
`(total_cost / amount.replace(0, nan)).fillna(0).clip(0, 10)` always is a
finite value in the clamped range [0, 10], and is exactly 0 whenever the
amount is 0 or missing. -/
theorem costRate_bounded (tc am : PFloat) :
    (∃ v : ℚ, costRate tc am = num v ∧ 0 ≤ v ∧ v ≤ 10) ∧
    ((am = num 0 ∨ am = nan) → costRate tc am = num 0) := by
  constructor
  · exact clip_0_10_form _ (fillna0_ne_nan _)
  · rintro (rfl | rfl)
    · have h : replace0nan (num 0) = nan := by simp [replace0nan]
      simp [costRate, h, pdiv_nan_right, fillna0, clip]
    · simp [costRate, replace0nan, pdiv_nan_right, fillna0, clip]

theorem costRate_bounded_witness :
    ((num 0 : PFloat) = num 0 ∨ (num 0 : PFloat) = nan) ∧
    costRate (num 5) (num 0) = num 0 :=
  ⟨Or.inl rfl, (costRate_bounded (num 5) (num 0)).2 (Or.inl rfl)⟩

/-- C6: quadrant assignment follows the standard Cartesian rule on the two
split points: (x ≥ splitX, y ≥ splitY) → 1, (x < splitX, y ≥ splitY) → 2,
(x < splitX, y < splitY) → 3, (x ≥ splitX, y < splitY) → 4. -/
theorem quadrant_cartesian_rule (x y sx sy : ℚ) :
    (sx ≤ x → sy ≤ y → calculate_quadrant (num x) (num y) (num sx) (num sy) = 1) ∧
    (x < sx → sy ≤ y → calculate_quadrant (num x) (num y) (num sx) (num sy) = 2) ∧
    (x < sx → y < sy → calculate_quadrant (num x) (num y) (num sx) (num sy) = 3) ∧
    (sx ≤ x → y < sy → calculate_quadrant (num x) (num y) (num sx) (num sy) = 4) := by
  refine ⟨fun h1 h2 => ?_, fun h1 h2 => ?_, fun h1 h2 => ?_, fun h1 h2 => ?_⟩
  · simp [calculate_quadrant, pge, plt, h1, h2]
  · simp [calculate_quadrant, pge, plt, h1, h2, h1.not_le]
  · simp [calculate_quadrant, pge, plt, h1, h2, h1.not_le, h2.not_le]
  · simp [calculate_quadrant, pge, plt, h1, h2, h1.not_lt, h2.not_le]

theorem quadrant_cartesian_rule_witness :
    ((1:ℚ) ≤ 2 ∧ (1:ℚ) ≤ 3 ∧
      calculate_quadrant (num 2) (num 3) (num 1) (num 1) = 1) :=
  ⟨by norm_num, by norm_num,
    (quadrant_cartesian_rule 2 3 1 1).1 (by norm_num) (by norm_num)⟩

/-- Quadrant labels assigned to a list of aggregated entities, as in
`_perform_quadrant_analysis` (`data['象限'] = data.apply(calculate_quadrant)`). -/
def quadrantAssignments (l : List (PFloat × PFloat)) (xa ya : PFloat) : List ℕ :=
  l.map (fun e => calculate_quadrant e.1 e.2 xa ya)

/-- C7: the four per-quadrant counts (`len(data[data['象限'] == q])` for
q = 1..4) partition the aggregated entities: they sum to the total count. -/
theorem quadrant_counts_partition (l : List (PFloat × PFloat)) (xa ya : PFloat) :
    (quadrantAssignments l xa ya).count 1 + (quadrantAssignments l xa ya).count 2 +
      (quadrantAssignments l xa ya).count 3 + (quadrantAssignments l xa ya).count 4 =
      l.length := by
  induction l with
  | nil => simp [quadrantAssignments]
  | cons e t ih =>
      have h4 := calc_quadrant_cases e.1 e.2 xa ya
      simp only [quadrantAssignments, List.map_cons, List.count_cons, List.length_cons] at *
      rcases h4 with h | h | h | h <;> simp [h] <;> omega

/-- C10: `calculate_quadrant` is total — on every pair of float coordinates
and split points, NaN included, it returns a value in {1, 2, 3, 4}; a NaN
X or Y coordinate fails every `>=`/`<` comparison and lands in quadrant 4. -/
theorem quadrant_total_nan_fourth :
    (∀ x y a b : PFloat, calculate_quadrant x y a b = 1 ∨
      calculate_quadrant x y a b = 2 ∨ calculate_quadrant x y a b = 3 ∨
      calculate_quadrant x y a b = 4) ∧
    (∀ y a b : PFloat, calculate_quadrant nan y a b = 4) ∧
    (∀ x a b : PFloat, calculate_quadrant x nan a b = 4) := by
  refine ⟨calc_quadrant_cases, fun y a b => ?_, fun x a b => ?_⟩
  · have hge : pge nan a = false := by cases a <;> rfl
    have hlt : plt nan a = false := by cases a <;> rfl
    simp [calculate_quadrant, hge, hlt]
  · have hge : pge nan b = false := by cases b <;> rfl
    have hlt : plt nan b = false := by cases b <;> rfl
    simp [calculate_quadrant, hge, hlt]

/-! ## Aggregated entities and the quadrant Y-axis split (product dimension) -/

def isNan : PFloat → Bool
  | nan => true
  | _ => false

/-- Sum of a pandas column of floats. -/
def psum (l : List PFloat) : PFloat := l.foldl padd (num 0)

/-- Model of `Series.mean()`: NaN entries are skipped; the mean of an all-NaN or empty
column is NaN. -/
def pmeanSkipNa (l : List PFloat) : PFloat :=
  let w := l.filter (fun x => !isNan x)
  if w.length = 0 then nan else pdiv (psum w) (num w.length)

/-- One aggregated entity (one group of `_aggregate_data`): summed quantity and
summed profit.  Group sums are finite because pandas `groupby(...).agg('sum')`
skips NaN cells. -/
structure AggRow where
  quantity : ℚ
  profit : ℚ
deriving DecidableEq

def totalQuantity (rows : List AggRow) : ℚ := (rows.map AggRow.quantity).sum

def totalProfit (rows : List AggRow) : ℚ := (rows.map AggRow.profit).sum

/-- The recomputed aggregated unit-margin column (`吨毛利`) of `_aggregate_data`. -/
def tonMargin (r : AggRow) : PFloat := unitMargin (num r.profit) (num r.quantity)

/-- From `_perform_quadrant_analysis`: the Y-axis split point for the "product"
dimension (whose axis config sets the Y field to the unit-margin column):
when profit and quantity are mapped and the total quantity is positive, the
split is `total_profit / total_quantity * 10000`; otherwise it is the pandas
mean of the per-entity unit-margin column. -/
def productYAvg (profitMapped quantityMapped : Bool) (rows : List AggRow) : PFloat :=
  if profitMapped && quantityMapped then
    if 0 < totalQuantity rows then
      num (totalProfit rows / totalQuantity rows * 10000)
    else pmeanSkipNa (rows.map tonMargin)
  else pmeanSkipNa (rows.map tonMargin)

/-- C3: for the "product" dimension the Y-axis split point is the weighted
mean (sum of profit / sum of quantity × 10000) whenever profit and quantity
are mapped and the total quantity is positive — and on the spec's 3-product
scenario (quantities [10, 20, 5], profits [2, 8, -1]) this differs from the
arithmetic mean of the per-entity unit margins. -/
theorem product_y_split_weighted_mean :
    (∀ rows : List AggRow, 0 < totalQuantity rows →
      productYAvg true true rows =
        num (totalProfit rows / totalQuantity rows * 10000)) ∧
    productYAvg true true [⟨10, 2⟩, ⟨20, 8⟩, ⟨5, -1⟩] ≠
      pmeanSkipNa ([⟨10, 2⟩, ⟨20, 8⟩, ⟨5, -1⟩].map tonMargin) := by
  constructor
  · intro rows h
    simp [productYAvg, h]
  · have hq : totalQuantity [⟨10, 2⟩, ⟨20, 8⟩, ⟨5, -1⟩] = 35 := by
      norm_num [totalQuantity]
    have hp : totalProfit [⟨10, 2⟩, ⟨20, 8⟩, ⟨5, -1⟩] = 9 := by
      norm_num [totalProfit]
    have hmap : [(⟨10, 2⟩ : AggRow), ⟨20, 8⟩, ⟨5, -1⟩].map tonMargin =
        [num 2000, num 4000, num (-2000)] := by
      norm_num [tonMargin, unitMargin, pdiv, pmul, fillna0]
    have hR : pmeanSkipNa [num 2000, num 4000, num (-2000)] = num (4000 / 3) := by
      norm_num [pmeanSkipNa, isNan, psum, padd, pdiv]
    rw [hmap, hR]
    simp [productYAvg, hq, hp]
    norm_num

theorem product_y_split_weighted_mean_witness :
    0 < totalQuantity [⟨10, 2⟩, ⟨20, 8⟩, ⟨5, -1⟩] ∧
    productYAvg true true [⟨10, 2⟩, ⟨20, 8⟩, ⟨5, -1⟩] = num (18000 / 7) := by
  have h : 0 < totalQuantity [⟨10, 2⟩, ⟨20, 8⟩, ⟨5, -1⟩] := by
    norm_num [totalQuantity]
  refine ⟨h, ?_⟩
  rw [product_y_split_weighted_mean.1 [⟨10, 2⟩, ⟨20, 8⟩, ⟨5, -1⟩] h]
  norm_num [totalQuantity, totalProfit]

/-! ## Pareto analysis (`_pareto_analysis`) -/

/-- Model of `Series.round(2)`, modelled on exact rationals: round to two decimal
places.  (pandas rounds a half tie to the even neighbour; the claims below
never evaluate at a tie, and every theorem uses only monotonicity of the
rounding, which holds for either tie rule.) -/
def round2 (q : ℚ) : ℚ := (round (q * 100) : ℤ) / 100

/-- Insert into a descending-sorted list (`sort_values(ascending=False)`). -/
def insertDesc (x : ℚ) : List ℚ → List ℚ
  | [] => [x]
  | y :: ys => if y < x then x :: y :: ys else y :: insertDesc x ys

def sortDesc : List ℚ → List ℚ
  | [] => []
  | x :: xs => insertDesc x (sortDesc xs)

/-- Running cumulative sums (`Series.cumsum()`), starting from `acc`. -/
def cumsumFrom (acc : ℚ) : List ℚ → List ℚ
  | [] => []
  | x :: xs => (acc + x) :: cumsumFrom (acc + x) xs

def cumsum (l : List ℚ) : List ℚ := cumsumFrom 0 l

/-- The `累计占比` column: `(cumsum / total * 100).round(2)`. -/
def cumPcts (l : List ℚ) : List ℚ :=
  (cumsum l).map (fun c => round2 (c / l.sum * 100))

/-- Cumulative percentages of the value column after descending sort. -/
def paretoPcts (values : List ℚ) : List ℚ := cumPcts (sortDesc values)

/-- The index `sorted_data[sorted_data['累计占比'] <= 80].index.max()`, with the NaN
of an empty selection replaced by 0. -/
def pareto80Index (pcts : List ℚ) : ℕ :=
  (((pcts.enum).filter (fun ip => decide (ip.2 ≤ 80))).map Prod.fst).foldr max 0

/-- The count `len(sorted_data.iloc[:pareto_80_index + 1])`: the size of the core set. -/
def coreCount (values : List ℚ) : ℕ :=
  pareto80Index (paretoPcts values) + 1

theorem insertDesc_perm (x : ℚ) (l : List ℚ) : (insertDesc x l).Perm (x :: l) := by
  induction l with
  | nil => exact List.Perm.refl _
  | cons y ys ih =>
      by_cases h : y < x
      · simp [insertDesc, h]
      · simp only [insertDesc, if_neg h]
        exact (ih.cons y).trans (List.Perm.swap x y ys)

theorem sortDesc_perm (l : List ℚ) : (sortDesc l).Perm l := by
  induction l with
  | nil => exact List.Perm.refl _
  | cons x xs ih => exact (insertDesc_perm x (sortDesc xs)).trans (ih.cons x)

theorem cumsumFrom_mem_le (a : ℚ) (l : List ℚ) (hl : ∀ x ∈ l, 0 ≤ x) :
    ∀ y ∈ cumsumFrom a l, a ≤ y := by
  induction l generalizing a with
  | nil => intro y hy; simp [cumsumFrom] at hy
  | cons x xs ih =>
      intro y hy
      have hx : 0 ≤ x := hl x (by simp)
      simp only [cumsumFrom, List.mem_cons] at hy
      rcases hy with rfl | hy
      · linarith
      · have := ih (a + x) (fun z hz => hl z (by simp [hz])) y hy
        linarith

theorem cumsumFrom_pairwise (a : ℚ) (l : List ℚ) (hl : ∀ x ∈ l, 0 ≤ x) :
    (cumsumFrom a l).Pairwise (· ≤ ·) := by
  induction l generalizing a with
  | nil => simp [cumsumFrom]
  | cons x xs ih =>
      simp only [cumsumFrom]
      refine List.Pairwise.cons ?_ (ih (a + x) (fun z hz => hl z (by simp [hz])))
      exact cumsumFrom_mem_le (a + x) xs (fun z hz => hl z (by simp [hz]))

theorem cumsumFrom_getLast (a : ℚ) (l : List ℚ) (hl : l ≠ []) :
    (cumsumFrom a l).getLast? = some (a + l.sum) := by
  induction l generalizing a with
  | nil => exact absurd rfl hl
  | cons x xs ih =>
      cases xs with
      | nil => simp [cumsumFrom]
      | cons y ys =>
          have hrec := ih (a + x) (by simp)
          simp only [cumsumFrom] at hrec ⊢
          rw [List.getLast?_cons_cons, hrec]
          simp [add_assoc]

theorem round2_mono {a b : ℚ} (h : a ≤ b) : round2 a ≤ round2 b := by
  unfold round2
  have h1 : round (a * 100) ≤ round (b * 100) := by
    rw [round_eq, round_eq]
    exact Int.floor_le_floor (by linarith)
  have h2 : ((round (a * 100) : ℤ) : ℚ) ≤ ((round (b * 100) : ℤ) : ℚ) := by
    exact_mod_cast h1
  linarith

theorem cumPcts_pairwise (m : List ℚ) (h0 : ∀ x ∈ m, 0 ≤ x) (hs : 0 < m.sum) :
    (cumPcts m).Pairwise (· ≤ ·) := by
  unfold cumPcts cumsum
  refine List.Pairwise.map _ ?_ (cumsumFrom_pairwise 0 m h0)
  intro a b hab
  apply round2_mono
  exact mul_le_mul_of_nonneg_right ((div_le_div_iff_of_pos_right hs).mpr hab) (by norm_num)

theorem cumPcts_getLast (m : List ℚ) (hm : m ≠ []) (hs : 0 < m.sum) :
    (cumPcts m).getLast? = some 100 := by
  unfold cumPcts cumsum
  rw [List.getLast?_map, cumsumFrom_getLast 0 m hm]
  have h1 : (0 + m.sum) / m.sum * 100 = 100 := by
    rw [zero_add, div_self (ne_of_gt hs), one_mul]
  simp only [Option.map_some', h1]
  norm_num [round2, round_eq]

theorem enumFrom_filter_le80 (l : List ℚ) (hp : l.Pairwise (· ≤ ·)) (i : ℕ) :
    ((List.enumFrom i l).filter (fun ip => decide (ip.2 ≤ 80))).map Prod.fst =
      List.range' i (l.countP (fun p => decide (p ≤ 80))) := by
  induction l generalizing i with
  | nil => simp
  | cons x xs ih =>
      rcases List.pairwise_cons.mp hp with ⟨hx, hp'⟩
      by_cases h : x ≤ 80
      · simp [List.enumFrom_cons, List.filter_cons, h, ih hp', List.countP_cons,
          List.range'_succ]
      · have hcount : xs.countP (fun p => decide (p ≤ 80)) = 0 :=
          List.countP_eq_zero.mpr (fun a ha => by
            simp only [decide_eq_true_eq]
            intro hc
            exact h (le_trans (hx a ha) hc))
        simp [List.enumFrom_cons, List.filter_cons, h, ih hp', hcount, List.countP_cons]

theorem foldr_max_range' (i k : ℕ) :
    (List.range' i k).foldr max 0 = if k = 0 then 0 else i + k - 1 := by
  induction k generalizing i with
  | zero => simp
  | succ k ih =>
      rw [List.range'_succ]
      simp only [List.foldr_cons, ih (i + 1)]
      by_cases hk : k = 0
      · simp [hk]
      · rw [if_neg hk, if_neg (Nat.succ_ne_zero k)]
        have h1 : i + 1 + k - 1 = i + k := by omega
        rw [h1, Nat.max_eq_right (Nat.le_add_right i k)]
        omega

theorem pareto80Index_pairwise (pcts : List ℚ) (hp : pcts.Pairwise (· ≤ ·)) :
    pareto80Index pcts + 1 = max 1 (pcts.countP (fun p => decide (p ≤ 80))) := by
  unfold pareto80Index
  rw [show pcts.enum = List.enumFrom 0 pcts from rfl,
    enumFrom_filter_le80 pcts hp 0, foldr_max_range']
  by_cases h : pcts.countP (fun p => decide (p ≤ 80)) = 0
  · simp [h]
  · rw [if_neg h, Nat.max_eq_right (by omega)]
    omega

theorem coreCount_characterization (l : List ℚ) (h0 : ∀ x ∈ l, 0 ≤ x)
    (hs : 0 < l.sum) :
    coreCount l = max 1 ((paretoPcts l).countP (fun p => decide (p ≤ 80))) := by
  unfold coreCount
  apply pareto80Index_pairwise
  unfold paretoPcts
  apply cumPcts_pairwise
  · intro x hx
    exact h0 x ((sortDesc_perm l).mem_iff.mp hx)
  · rw [(sortDesc_perm l).sum_eq]
    exact hs

/-- C4: over nonnegative values with a positive total, the Pareto core set is
the prefix of the descending-sorted entities whose (rounded) cumulative
percentage is ≤ 80 — an entity landing exactly on 80% is included (the code
filters with `<=`) — except that the core set is never empty: when even the
first entity exceeds 80%, the core still holds that single entity.  On the
spec's 5-customer scenario with amounts [100, 80, 60, 40, 20] the core set has
exactly 3 entities. -/
theorem pareto_core_set_rule :
    (∀ l : List ℚ, (∀ x ∈ l, 0 ≤ x) → 0 < l.sum →
      coreCount l = max 1 ((paretoPcts l).countP (fun p => decide (p ≤ 80)))) ∧
    (∀ l : List ℚ, 1 ≤ coreCount l) ∧
    coreCount [100, 80, 60, 40, 20] = 3 := by
  refine ⟨coreCount_characterization, fun l => Nat.succ_le_succ (Nat.zero_le _), ?_⟩
  have hsort : sortDesc [100, 80, 60, 40, 20] = [(100 : ℚ), 80, 60, 40, 20] := by
    norm_num [sortDesc, insertDesc]
  have hps : paretoPcts [100, 80, 60, 40, 20] =
      [3333 / 100, 60, 80, 9333 / 100, 100] := by
    rw [paretoPcts, hsort]
    norm_num [cumPcts, cumsum, cumsumFrom, round2, round_eq]
  have d0 : decide ((3333 : ℚ) / 100 ≤ 80) = true := decide_eq_true (by norm_num)
  have d1 : decide ((60 : ℚ) ≤ 80) = true := decide_eq_true (by norm_num)
  have d2 : decide ((80 : ℚ) ≤ 80) = true := decide_eq_true (by norm_num)
  have d3 : decide ((9333 : ℚ) / 100 ≤ 80) = false := decide_eq_false (by norm_num)
  have d4 : decide ((100 : ℚ) ≤ 80) = false := decide_eq_false (by norm_num)
  rw [coreCount, hps]
  unfold pareto80Index
  simp only [List.enum, List.enumFrom, List.filter, d0, d1, d2, d3, d4,
    List.map_cons, List.map_nil, List.foldr_cons, List.foldr_nil]
  rfl

theorem pareto_core_set_rule_witness :
    ((∀ x ∈ [(100 : ℚ), 80, 60, 40, 20], 0 ≤ x) ∧
      0 < [(100 : ℚ), 80, 60, 40, 20].sum) ∧
    coreCount [100, 80, 60, 40, 20] =
      max 1 ((paretoPcts [100, 80, 60, 40, 20]).countP (fun p => decide (p ≤ 80))) := by
  have h1 : ∀ x ∈ [(100 : ℚ), 80, 60, 40, 20], 0 ≤ x := by norm_num
  have h2 : 0 < [(100 : ℚ), 80, 60, 40, 20].sum := by norm_num
  exact ⟨⟨h1, h2⟩, pareto_core_set_rule.1 _ h1 h2⟩

/-- C5 (counterexample): the claim quantifies over datasets that may contain
negative values, but for the two entities with values [100, -50] the cumulative
percentage sequence is [200, 100], which is strictly decreasing — the code's
cumulative-percentage column is not monotone on such data. -/
theorem pareto_pcts_negative_not_monotone :
    paretoPcts [100, -50] = [200, 100] ∧
    ¬ (paretoPcts [100, -50]).Pairwise (fun a b => a ≤ b) := by
  have h : paretoPcts [100, -50] = [200, 100] := by
    norm_num [paretoPcts, sortDesc, insertDesc, cumPcts, cumsum, cumsumFrom,
      round2, round_eq]
  refine ⟨h, ?_⟩
  rw [h]
  intro hp
  rcases List.pairwise_cons.mp hp with ⟨h1, _⟩
  have := h1 100 (by simp)
  norm_num at this

/-- C5 (amended): for every entity set with nonnegative values and positive
total, the cumulative-percentage sequence is monotonically non-decreasing and
its last element equals 100 — hence it is ≥ min(80, 100) = 80.  (With negative
values the sequence can decrease; see the counterexample.) -/
theorem pareto_pcts_monotone_nonneg :
    ∀ l : List ℚ, (∀ x ∈ l, 0 ≤ x) → 0 < l.sum →
      (paretoPcts l).Pairwise (fun a b => a ≤ b) ∧
      (paretoPcts l).getLast? = some 100 := by
  intro l h0 hs
  have hnil : l ≠ [] := by
    intro h
    rw [h] at hs
    simp at hs
  have hnil' : sortDesc l ≠ [] := by
    intro h
    apply hnil
    have hperm := sortDesc_perm l
    rw [h] at hperm
    exact (hperm.symm.eq_nil)
  have h0' : ∀ x ∈ sortDesc l, 0 ≤ x := fun x hx =>
    h0 x ((sortDesc_perm l).mem_iff.mp hx)
  have hs' : 0 < (sortDesc l).sum := by
    rw [(sortDesc_perm l).sum_eq]
    exact hs
  exact ⟨cumPcts_pairwise _ h0' hs', cumPcts_getLast _ hnil' hs'⟩

theorem pareto_pcts_monotone_nonneg_witness :
    ((∀ x ∈ [(100 : ℚ), 80, 60, 40, 20], 0 ≤ x) ∧
      0 < [(100 : ℚ), 80, 60, 40, 20].sum) ∧
    ((paretoPcts [100, 80, 60, 40, 20]).Pairwise (fun a b => a ≤ b) ∧
      (paretoPcts [100, 80, 60, 40, 20]).getLast? = some 100) := by
  have h1 : ∀ x ∈ [(100 : ℚ), 80, 60, 40, 20], 0 ≤ x := by norm_num
  have h2 : 0 < [(100 : ℚ), 80, 60, 40, 20].sum := by norm_num
  exact ⟨⟨h1, h2⟩, pareto_pcts_monotone_nonneg _ h1 h2⟩

/-! ## Dynamic cost-rate intervals (`_calculate_dynamic_intervals`) -/

def listMin : List ℚ → ℚ
  | [] => 0
  | x :: xs => xs.foldl min x

def listMax : List ℚ → ℚ
  | [] => 0
  | x :: xs => xs.foldl max x

def insertAsc (x : ℚ) : List ℚ → List ℚ
  | [] => [x]
  | y :: ys => if x < y then x :: y :: ys else y :: insertAsc x ys

def sortAsc : List ℚ → List ℚ
  | [] => []
  | x :: xs => insertAsc x (sortAsc xs)

/-- Model of `Series.quantile(q)` with the default linear interpolation. -/
def quantileLinear (l : List ℚ) (q : ℚ) : ℚ :=
  let s := sortAsc l
  let n := s.length
  if n = 0 then 0
  else
    let h : ℚ := q * ((n : ℚ) - 1)
    let i : ℕ := (⌊h⌋).toNat
    let lo := s.getD i 0
    let hi := s.getD (i + 1) lo
    lo + (h - (i : ℚ)) * (hi - lo)

/-- Insert keeping the list sorted ascending without duplicates. -/
def insUniq (x : ℚ) : List ℚ → List ℚ
  | [] => [x]
  | y :: ys => if x < y then x :: y :: ys else if x = y then y :: ys else y :: insUniq x ys

/-- Model of `sorted(list(set(l)))`. -/
def dedupSort (l : List ℚ) : List ℚ := l.foldr insUniq []

def strictInc : List ℚ → Bool
  | [] => true
  | [_] => true
  | a :: b :: t => decide (a < b) && strictInc (b :: t)

/-- From `_validate_intervals`: boundaries strictly increasing and at least 3 of
them.  (The source also rejects NaN/infinite boundaries; on exact rationals
that check is vacuously true.) -/
def validate_intervals (intervals : List ℚ) : Bool :=
  strictInc intervals && decide (3 ≤ intervals.length)

/-- Python `int()` applied to a rational: truncation toward zero. -/
def truncInt (q : ℚ) : ℤ := q.num / q.den

/-- Model of `_generate_interval_labels`. -/
def generate_interval_labels : List ℚ → List String
  | a :: _ :: [] => [s!">{truncInt (a * 100)}%"]
  | a :: b :: t =>
      s!"{truncInt (a * 100)}-{truncInt (b * 100)}%" :: generate_interval_labels (b :: t)
  | _ => []

/-- One entry of the `intervals_config` dict of `_calculate_dynamic_intervals`. -/
structure IntervalMethod where
  name : String
  method_type : String
  intervals : List ℚ
  labels : List String
  description : String
deriving DecidableEq

/-- Model of `_calculate_dynamic_intervals`: builds the candidate interval strategies in
dict-insertion order — quartile (only when the observed range is at least
0.01), equal-width (only when the range is positive), then the standard scheme
(when all values lie in [0, 1]) or the extended scheme (when the maximum
exceeds 1); if no candidate was produced, the midpoint two-bucket split; and
finally, when the quartile entry is absent, the first entry is relabeled as
the recommended one. -/
def calculate_dynamic_intervals (cost_rates : List ℚ) : List IntervalMethod :=
  let min_rate := listMin cost_rates
  let max_rate := listMax cost_rates
  let cfg1 : List IntervalMethod :=
    if (1 : ℚ) / 100 ≤ max_rate - min_rate then
      let q25 := quantileLinear cost_rates (1 / 4)
      let q50 := quantileLinear cost_rates (1 / 2)
      let q75 := quantileLinear cost_rates (3 / 4)
      let intervals := dedupSort [max 0 (min_rate - 1 / 1000), q25, q50, q75,
        min 1 (max_rate + 1 / 1000)]
      if 3 ≤ intervals.length ∧ validate_intervals intervals = true then
        [⟨"等频划分（推荐）", "quartile", intervals, generate_interval_labels intervals,
          "基于四分位数划分，确保每个区间包含大致相同数量的项目"⟩]
      else []
    else []
  let cfg2 : List IntervalMethod :=
    if (0 : ℚ) < max_rate - min_rate then
      let w := (max_rate - min_rate) / 5
      let intervals := [max 0 (min_rate - 1 / 1000), min_rate + w, min_rate + 2 * w,
        min_rate + 3 * w, min_rate + 4 * w, min 1 (max_rate + 1 / 1000)]
      if validate_intervals intervals = true then
        [⟨"等宽划分", "equal_width", intervals, generate_interval_labels intervals,
          "将成本率范围均匀分为5个等宽区间"⟩]
      else []
    else []
  let cfg3 : List IntervalMethod :=
    if 0 ≤ min_rate ∧ max_rate ≤ 1 then
      [⟨"标准区间", "standard", [0, 3 / 10, 1 / 2, 7 / 10, 4 / 5, 1],
        ["<30%", "30-50%", "50-70%", "70-80%", ">80%"], "使用标准的成本率区间划分"⟩]
    else if 1 < max_rate then
      if max_rate ≤ 2 then
        [⟨"扩展区间", "extended", [0, 1 / 2, 1, max (21 / 10) (max_rate + 1 / 10)],
          ["<50%", "50-100%", ">100%"], "适用于高成本率数据的扩展区间划分"⟩]
      else
        [⟨"扩展区间", "extended", [0, 1 / 2, 1, 2, max 10 (max_rate + 1 / 10)],
          ["<50%", "50-100%", "100-200%", ">200%"], "适用于高成本率数据的扩展区间划分"⟩]
    else []
  let cfg := cfg1 ++ cfg2 ++ cfg3
  let cfg' :=
    if cfg.isEmpty then
      [⟨"简单划分", "simple",
        [max 0 (min_rate - 1 / 1000), (min_rate + max_rate) / 2, max_rate + 1 / 1000],
        ["低成本率", "高成本率"], "简单的二分法划分"⟩]
    else cfg
  if cfg'.any (fun m => m.name == "等频划分（推荐）") then cfg'
  else
    match cfg' with
    | [] => []
    | first :: rest =>
        { first with
          name := first.name ++ "（推荐）",
          description := "数据分布情况下的推荐划分方法" } :: rest

theorem dynamic_intervals_const_eval :
    calculate_dynamic_intervals (List.replicate 10 ((1 : ℚ) / 2)) =
      [⟨"标准区间（推荐）", "standard", [0, 3 / 10, 1 / 2, 7 / 10, 4 / 5, 1],
        ["<30%", "30-50%", "50-70%", "70-80%", ">80%"],
        "数据分布情况下的推荐划分方法"⟩] := by
  have hmin : listMin (List.replicate 10 ((1 : ℚ) / 2)) = 1 / 2 := by
    norm_num [List.replicate, listMin]
  have hmax : listMax (List.replicate 10 ((1 : ℚ) / 2)) = 1 / 2 := by
    norm_num [List.replicate, listMax]
  unfold calculate_dynamic_intervals
  rw [hmin, hmax]
  norm_num
  rw [if_neg (show ¬("标准区间" = "等频划分（推荐）") by decide)]
  rw [show "标准区间" ++ "（推荐）" = "标准区间（推荐）" from rfl]

/-- C8 (counterexample): on a ratio column whose 10 values all equal 0.5 the
engine does not fall back to the midpoint two-bucket split.  The quartile and
equal-width strategies are indeed rejected (the observed range is 0), but the
values lie inside [0, 1], so the fixed standard scheme is produced, the config
is non-empty, and the "simple" midpoint fallback is never constructed: the
only strategy returned has method type "standard". -/
theorem dynamic_intervals_const_no_simple_fallback :
    (calculate_dynamic_intervals (List.replicate 10 ((1 : ℚ) / 2))).map
        IntervalMethod.method_type = ["standard"] ∧
    ((calculate_dynamic_intervals (List.replicate 10 ((1 : ℚ) / 2))).map
        IntervalMethod.method_type).contains "simple" = false := by
  rw [dynamic_intervals_const_eval]
  exact ⟨rfl, rfl⟩

/-- C8 (amended): on a ratio column whose 10 values all equal 0.5, dynamic
interval construction rejects the quartile strategy (range below the 0.01
threshold) and the equal-width strategy (zero width), selects the fixed
standard scheme — valid because every value lies in [0, 1] — relabels it as
the recommended method, and raises no error; the midpoint two-bucket split is
used only when no strategy at all is produced. -/
theorem dynamic_intervals_const_standard_scheme :
    calculate_dynamic_intervals (List.replicate 10 ((1 : ℚ) / 2)) =
      [⟨"标准区间（推荐）", "standard", [0, 3 / 10, 1 / 2, 7 / 10, 4 / 5, 1],
        ["<30%", "30-50%", "50-70%", "70-80%", ">80%"],
        "数据分布情况下的推荐划分方法"⟩] :=
  dynamic_intervals_const_eval

/-! ## Field detection (`detect_fields`, `utils.detect_field_type`) -/

/-- Collapse runs of whitespace to single spaces (`re.sub(r'\s+', ' ', s)`);
the flag records whether the previous character was whitespace. -/
def squeezeWs : List Char → Bool → List Char
  | [], _ => []
  | c :: cs, prevWs =>
      if c.isWhitespace then
        (if prevWs then squeezeWs cs true else ' ' :: squeezeWs cs true)
      else c :: squeezeWs cs false

/-- Strip leading and trailing whitespace (`str.strip()`). -/
def trimWs (l : List Char) : List Char :=
  ((l.dropWhile Char.isWhitespace).reverse.dropWhile Char.isWhitespace).reverse

/-- From `utils.clean_column_name`: strip, then collapse internal whitespace runs. -/
def clean_column_name (s : String) : String :=
  ⟨squeezeWs (trimWs s.data) false⟩

def isPrefixList : List Char → List Char → Bool
  | [], _ => true
  | _ :: _, [] => false
  | x :: xs, y :: ys => x == y && isPrefixList xs ys

def isInfixList (a : List Char) : List Char → Bool
  | [] => a.isEmpty
  | y :: ys => isPrefixList a (y :: ys) || isInfixList a ys

/-- Python's `a in b` on strings: `a` occurs as a contiguous substring of `b`. -/
def isSubstr (a b : String) : Bool := isInfixList a.data b.data

/-- The table `utils.get_field_aliases`, in dict-insertion order, each alias list in
priority order. -/
def get_field_aliases : List (String × List String) :=
  [("product", ["SKU", "物料名称", "产品名称", "存货名称", "物料", "单品", "产品", "商品",
      "货品", "品名", "物料编码", "产品编码", "商品名称", "货物名称", "品种", "产品型号",
      "型号", "规格"]),
   ("customer", ["客户名称", "客户", "客户全称", "客户简称", "购买方", "买方", "采购方",
      "客户代码", "客户编码", "客户ID", "买家", "收货方", "收货人", "终端客户", "最终客户"]),
   ("region", ["地区", "区域", "省份", "地域", "区域名称", "省市", "城市", "省", "市",
      "地区名称", "销售区域", "配送区域"]),
   ("quantity", ["数量", "销量", "销售数量", "出货量", "发货量", "重量", "净重", "毛重",
      "吨数", "件数", "箱数", "包装数量", "发货数量", "出库数量"]),
   ("profit", ["毛利", "利润", "毛利润", "毛利额", "利润额", "盈利", "毛利金额", "利润金额",
      "毛利贡献", "利润贡献"]),
   ("amount", ["金额", "销售额", "含税金额", "销售金额", "总金额", "成交金额", "交易金额",
      "订单金额", "合同金额", "开票金额", "收入", "营业额"]),
   ("cost", ["成本", "成本价", "采购成本", "进货成本", "单位成本", "总成本", "成本金额"]),
   ("sea_freight", ["海运费", "海运成本", "海运费用", "海运运费"]),
   ("land_freight", ["陆运费", "陆运成本", "陆运费用", "运费", "运输费", "物流费", "配送费"]),
   ("agency_fee", ["代办费", "代理费", "服务费", "手续费", "佣金", "促销管理费", "仓储费"]),
   ("unit_price", ["单价", "价格", "售价", "单位价格", "含税单价", "不含税单价"]),
   ("category", ["物料基本分类", "分类", "类别", "产品分类", "商品分类", "品类", "产品类型",
      "商品类型"])]

/-- The `special_patterns` keyword table of `utils.detect_field_type`. -/
def special_patterns : List (String × List String) :=
  [("product", ["品", "料", "sku", "SKU", "物料", "产品", "商品", "货品"]),
   ("customer", ["客", "户", "买", "购", "收货"]),
   ("region", ["地", "区", "省", "市", "域"]),
   ("quantity", ["量", "数", "重", "吨", "件", "箱"]),
   ("profit", ["利", "润", "盈"]),
   ("amount", ["额", "金", "收入", "营业"]),
   ("cost", ["本", "价", "成本"]),
   ("unit_price", ["价", "单价", "价格"])]

/-- The `loose_patterns` table of `utils.detect_field_type`. -/
def loose_patterns : List (String × List String) :=
  [("customer", ["客户", "买方", "购买", "收货"]),
   ("product", ["产品", "商品", "物料", "货品"]),
   ("region", ["地区", "区域", "省份"]),
   ("amount", ["金额", "销售", "收入"]),
   ("quantity", ["数量", "销量", "重量"]),
   ("profit", ["毛利", "利润"])]

/-- Model of `utils.detect_field_type`: exact alias match, then substring match in
either direction, then single-keyword heuristics, then the loose patterns
(whose Python `any(p in cleaned for p in pattern)` iterates the CHARACTERS of
the pattern string), else "unknown". -/
def detect_field_type (column_name : String) : String :=
  let c := clean_column_name column_name
  match get_field_aliases.find? (fun p => p.2.contains c) with
  | some p => p.1
  | none =>
    match get_field_aliases.find?
        (fun p => p.2.any (fun al => isSubstr al c || isSubstr c al)) with
    | some p => p.1
    | none =>
      match special_patterns.find? (fun p => p.2.any (fun pat => isSubstr pat c)) with
      | some p => p.1
      | none =>
        match loose_patterns.find? (fun p => p.2.any (fun pat =>
            isSubstr pat c || pat.data.any (fun ch => c.data.contains ch))) with
        | some p => p.1
        | none => "unknown"

def aliasesOf (ft : String) : List String :=
  match get_field_aliases.find? (fun p => p.1 == ft) with
  | some p => p.2
  | none => []

/-- The conflict priority of `detect_fields`: the position of the header in
the role's alias list (`aliases[field_type].index(column)`), or 999 when the
header is not an exact alias (`ValueError` / `KeyError` branch). -/
def aliasPriority (ft h : String) : ℕ :=
  match (aliasesOf ft).findIdx? (fun a => a == h) with
  | some i => i
  | none => 999

def lookupRole : List (String × String) → String → Option String
  | [], _ => none
  | (k, v) :: rest, r => if k = r then some v else lookupRole rest r

/-- One conflict-resolution step of `detect_fields`: record the header for a
role, replacing the current holder only when the new header has strictly
smaller alias priority. -/
def updateField : List (String × String) → String → String → List (String × String)
  | [], ft, col => [(ft, col)]
  | (k, v) :: rest, ft, col =>
      if k = ft then
        (if aliasPriority ft col < aliasPriority ft v then (k, col) :: rest
         else (k, v) :: rest)
      else (k, v) :: updateField rest ft col

def detectStep (m : List (String × String)) (col : String) : List (String × String) :=
  if detect_field_type col = "unknown" then m
  else updateField m (detect_field_type col) col

/-- Model of `detect_fields`: fold the table headers in order, building the
`detected_fields` role → header mapping. -/
def detect_fields (columns : List String) : List (String × String) :=
  columns.foldl detectStep []

theorem lookupRole_updateField_ne (m : List (String × String)) (ft col r : String)
    (h : r ≠ ft) :
    lookupRole (updateField m ft col) r = lookupRole m r := by
  induction m with
  | nil => simp [updateField, lookupRole, Ne.symm h]
  | cons p rest ih =>
      obtain ⟨k, v⟩ := p
      by_cases hk : k = ft
      · subst hk
        by_cases hpr : aliasPriority k col < aliasPriority k v <;>
          simp [updateField, lookupRole, hpr, Ne.symm h]
      · by_cases hk2 : k = r <;> simp [updateField, lookupRole, hk, hk2, ih, h]

theorem lookupRole_updateField_self (m : List (String × String)) (ft col : String) :
    lookupRole (updateField m ft col) ft =
      some (match lookupRole m ft with
        | none => col
        | some cur => if aliasPriority ft col < aliasPriority ft cur then col else cur) := by
  induction m with
  | nil => simp [updateField, lookupRole]
  | cons p rest ih =>
      obtain ⟨k, v⟩ := p
      by_cases hk : k = ft
      · subst hk
        by_cases hpr : aliasPriority k col < aliasPriority k v <;>
          simp [updateField, lookupRole, hpr]
      · simp [updateField, lookupRole, hk, ih]

theorem detect_foldl_inv (cols : List String) :
    ∀ (m : List (String × String)) (r h : String), r ≠ "unknown" →
      lookupRole (cols.foldl detectStep m) r = some h →
      ((lookupRole m r = some h) ∨ (h ∈ cols ∧ detect_field_type h = r)) ∧
      (∀ h' ∈ cols, detect_field_type h' = r →
        aliasPriority r h ≤ aliasPriority r h') ∧
      (∀ cur, lookupRole m r = some cur →
        aliasPriority r h ≤ aliasPriority r cur) := by
  induction cols with
  | nil =>
      intro m r h _ hl
      rw [List.foldl_nil] at hl
      refine ⟨Or.inl hl, by simp, fun cur hcur => ?_⟩
      have h1 : some h = some cur := hl.symm.trans hcur
      injection h1 with h1
      rw [h1]
  | cons c cs ih =>
      intro m r h hr hl
      rw [List.foldl_cons] at hl
      obtain ⟨hd, hb, hc⟩ := ih (detectStep m c) r h hr hl
      obtain ⟨ft, hftc⟩ : ∃ ft, detect_field_type c = ft := ⟨_, rfl⟩
      have hm0 : detectStep m c = if ft = "unknown" then m else updateField m ft c := by
        simp only [detectStep, hftc]
      by_cases hft : ft = "unknown"
      · rw [if_pos hft] at hm0
        rw [hm0] at hd hc
        refine ⟨?_, ?_, hc⟩
        · rcases hd with h1 | h1
          · exact Or.inl h1
          · exact Or.inr ⟨List.mem_cons_of_mem _ h1.1, h1.2⟩
        · intro h' hh' hty
          rcases List.mem_cons.mp hh' with hceq | hh'
          · rw [hceq, hftc] at hty
            exact absurd (hty.symm.trans hft) hr
          · exact hb h' hh' hty
      · rw [if_neg hft] at hm0
        rw [hm0] at hd hc
        by_cases hrft : r = ft
        · subst hrft
          cases hcur : lookupRole m r with
          | none =>
              have hsel : lookupRole (updateField m r c) r = some c := by
                rw [lookupRole_updateField_self, hcur]
              refine ⟨?_, ?_, ?_⟩
              · rcases hd with h1 | h1
                · rw [hsel] at h1
                  injection h1 with h1
                  refine Or.inr ⟨?_, ?_⟩
                  · rw [← h1]; exact List.mem_cons_self _ _
                  · rw [← h1]; exact hftc
                · exact Or.inr ⟨List.mem_cons_of_mem _ h1.1, h1.2⟩
              · intro h' hh' hty
                rcases List.mem_cons.mp hh' with hceq | hh'
                · rw [hceq]
                  exact hc _ hsel
                · exact hb h' hh' hty
              · intro cur hcur2
                exact Option.noConfusion hcur2
          | some cur =>
              have hsel : lookupRole (updateField m r c) r =
                  some (if aliasPriority r c < aliasPriority r cur then c else cur) := by
                rw [lookupRole_updateField_self, hcur]
              have hhle : aliasPriority r h ≤
                  aliasPriority r (if aliasPriority r c < aliasPriority r cur then c else cur) :=
                hc _ hsel
              have hple : aliasPriority r
                  (if aliasPriority r c < aliasPriority r cur then c else cur) ≤
                  aliasPriority r cur := by
                by_cases hpp : aliasPriority r c < aliasPriority r cur
                · rw [if_pos hpp]; exact le_of_lt hpp
                · rw [if_neg hpp]
              have hpc : aliasPriority r
                  (if aliasPriority r c < aliasPriority r cur then c else cur) ≤
                  aliasPriority r c := by
                by_cases hpp : aliasPriority r c < aliasPriority r cur
                · rw [if_pos hpp]
                · rw [if_neg hpp]; exact Nat.le_of_not_lt hpp
              refine ⟨?_, ?_, ?_⟩
              · rcases hd with h1 | h1
                · rw [hsel] at h1
                  injection h1 with h1
                  by_cases hpp : aliasPriority r c < aliasPriority r cur
                  · rw [if_pos hpp] at h1
                    refine Or.inr ⟨?_, ?_⟩
                    · rw [← h1]; exact List.mem_cons_self _ _
                    · rw [← h1]; exact hftc
                  · rw [if_neg hpp] at h1
                    refine Or.inl ?_
                    rw [h1]
                · exact Or.inr ⟨List.mem_cons_of_mem _ h1.1, h1.2⟩
              · intro h' hh' hty
                rcases List.mem_cons.mp hh' with hceq | hh'
                · rw [hceq]
                  exact le_trans hhle hpc
                · exact hb h' hh' hty
              · intro cur2 hcur2
                injection hcur2 with hcur2
                rw [← hcur2]
                exact le_trans hhle hple
        · have hne : lookupRole (updateField m ft c) r = lookupRole m r :=
            lookupRole_updateField_ne m ft c r hrft
          rw [hne] at hd hc
          refine ⟨?_, ?_, hc⟩
          · rcases hd with h1 | h1
            · exact Or.inl h1
            · exact Or.inr ⟨List.mem_cons_of_mem _ h1.1, h1.2⟩
          · intro h' hh' hty
            rcases List.mem_cons.mp hh' with hceq | hh'
            · rw [hceq, hftc] at hty
              exact absurd hty.symm hrft
            · exact hb h' hh' hty

theorem findIdx_beq_getD (h : String) (l : List String) (hm : h ∈ l) :
    l.getD (match l.findIdx? (fun a => a == h) with | some i => i | none => 999) "" = h := by
  induction l with
  | nil => cases hm
  | cons x xs ih =>
      by_cases hx : (x == h) = true
      · simp [List.findIdx?_cons, hx, List.getD]
        exact beq_iff_eq.mp hx
      · have hxs : h ∈ xs := by
          rcases List.mem_cons.mp hm with hceq | hm2
          · rw [hceq] at hx
            simp at hx
          · exact hm2
        cases hfi : xs.findIdx? (fun a => a == h) with
        | none =>
            have := List.findIdx?_eq_none_iff.mp hfi h hxs
            simp at this
        | some i =>
            have ihx := ih hxs
            rw [hfi] at ihx
            simp [List.findIdx?_cons, hx, hfi, List.getD]
            simpa [List.getD] using ihx

theorem aliasPriority_not_mem (r h : String) (hm : h ∉ aliasesOf r) :
    aliasPriority r h = 999 := by
  have hnone : (aliasesOf r).findIdx? (fun a => a == h) = none :=
    List.findIdx?_eq_none_iff.mpr (fun x hx => by
      by_cases hxe : x = h
      · exact absurd (hxe ▸ hx) hm
      · simp [hxe])
  simp [aliasPriority, hnone]

/-- C9: when two distinct headers resolve to the same canonical role,
`detect_fields` keeps the header with the smallest alias priority — the
position of the header's own (exact-match) alias in the role's alias list —
and every header that is not an exact alias of the role (matched instead by
substring or keyword heuristics) carries the bottom priority 999 ("last");
ties keep the earlier column.  Part 1 quantifies over every header of the
table that detects to the chosen role; parts 2 and 3 show that the priority of
an exact-alias header is the index of its matching alias and that any other
header's priority is 999. -/
theorem detect_fields_priority_resolution :
    (∀ (cols : List String) (r h : String), r ≠ "unknown" →
        lookupRole (detect_fields cols) r = some h →
        h ∈ cols ∧ detect_field_type h = r ∧
          ∀ h' ∈ cols, detect_field_type h' = r →
            aliasPriority r h ≤ aliasPriority r h') ∧
    (∀ r h : String, h ∈ aliasesOf r →
        (aliasesOf r).getD (aliasPriority r h) "" = h) ∧
    (∀ r h : String, h ∉ aliasesOf r → aliasPriority r h = 999) := by
  refine ⟨?_, ?_, aliasPriority_not_mem⟩
  · intro cols r h hr hl
    obtain ⟨hd, hb, _⟩ := detect_foldl_inv cols [] r h hr hl
    rcases hd with h1 | h1
    · cases h1
    · exact ⟨h1.1, h1.2, hb⟩
  · intro r h hm
    unfold aliasPriority
    exact findIdx_beq_getD h (aliasesOf r) hm

theorem detect_fields_priority_resolution_witness :
    (("product" : String) ≠ "unknown" ∧
      lookupRole (detect_fields ["产品名称", "SKU"]) "product" = some "SKU") ∧
    ("SKU" ∈ ["产品名称", "SKU"] ∧ detect_field_type "SKU" = "product" ∧
      ∀ h' ∈ ["产品名称", "SKU"], detect_field_type h' = "product" →
        aliasPriority "product" "SKU" ≤ aliasPriority "product" h') := by
  have h1 : ("product" : String) ≠ "unknown" := by decide
  have h2 : lookupRole (detect_fields ["产品名称", "SKU"]) "product" = some "SKU" := by
    decide
  exact ⟨⟨h1, h2⟩, detect_fields_priority_resolution.1 _ _ _ h1 h2⟩
